import Mathlib

/-!
Verification development for the discrete control simulator
(periodic-task runtime with discrete-time blocks).

The C++ sources are embedded shallowly: `double` becomes `ℚ`, mutable
objects become explicit state records, a `std::vector` or `std::deque`
becomes a `List`, and operations whose C++ counterpart can hit
undefined behaviour (out-of-range indexing, modulo by zero,
`pop_front` on an empty deque) or throw become `Option`- or
`Except`-valued functions whose error branch marks exactly the
undefined or throwing executions.
-/

namespace DiscreteSystems

/-! ## PIDController (PIDController.cpp)

State: gains `Kp, Ki, Kd`, sampling period `Ts` (from the
`DiscreteSystem` base), and the two history vectors `eHist_`, `uHist_`
which the constructor clears and `compute` pushes onto. -/

structure PIDState where
  Kp : ℚ
  Ki : ℚ
  Kd : ℚ
  Ts : ℚ
  eHist : List ℚ
  uHist : List ℚ
  deriving Repr, DecidableEq

/-- Constructor `PIDController::PIDController`: inherits the
`DiscreteSystem` check `Ts <= 0 → throw`, stores the gains and clears
both histories. -/
def PIDController.make (Kp Ki Kd Ts : ℚ) : Except String PIDState :=
  if Ts ≤ 0 then .error "InvalidSamplingTime: Ts must be > 0"
  else .ok { Kp := Kp, Ki := Ki, Kd := Kd, Ts := Ts, eHist := [], uHist := [] }

/-- Method `PIDController::compute(double e_k)`: velocity-form PID.
Reads `e[k-1] = eHist_.back()`, `e[k-2] = eHist_[size-2]`,
`u[k-1] = uHist_.back()` (each `0` when missing), computes
`a0 = Kp + Ki*Ts + Kd/Ts`, `a1 = -Kp - 2*Kd/Ts`, `a2 = Kd/Ts`,
`u_k = u[k-1] + a0*e_k + a1*e[k-1] + a2*e[k-2]`, then pushes `e_k`
and `u_k` onto the histories. -/
def PIDController.compute (s : PIDState) (ek : ℚ) : ℚ × PIDState :=
  let ek1 : ℚ := if s.eHist.length ≥ 1 then s.eHist.getLastD 0 else 0
  let ek2 : ℚ := if s.eHist.length ≥ 2 then s.eHist.getD (s.eHist.length - 2) 0 else 0
  let uk1 : ℚ := if s.uHist.isEmpty then 0 else s.uHist.getLastD 0
  let a0 : ℚ := s.Kp + s.Ki * s.Ts + s.Kd / s.Ts
  let a1 : ℚ := -s.Kp - 2 * s.Kd / s.Ts
  let a2 : ℚ := s.Kd / s.Ts
  let du : ℚ := a0 * ek + a1 * ek1 + a2 * ek2
  let uk : ℚ := uk1 + du
  (uk, { s with eHist := s.eHist ++ [ek], uHist := s.uHist ++ [uk] })

/-- Method `PIDController::setGains(Kp, Ki, Kd)`: overwrites the three
gains, touching nothing else. -/
def PIDController.setGains (s : PIDState) (Kp Ki Kd : ℚ) : PIDState :=
  { s with Kp := Kp, Ki := Ki, Kd := Kd }

/-- Method `PIDController::resetState()`: clears both histories. -/
def PIDController.resetState (s : PIDState) : PIDState :=
  { s with eHist := [], uHist := [] }

/-- Feeding a list of errors through `compute`, collecting the outputs. -/
def PIDController.run (s : PIDState) : List ℚ → List ℚ × PIDState
  | [] => ([], s)
  | e :: es =>
    let p := PIDController.compute s e
    let q := PIDController.run p.2 es
    (p.1 :: q.1, q.2)

/-! ## ADConverter (ADConverter.cpp)

State: the single held value `u_prev_`, initialised to `0` by the
constructor. -/

structure ADState where
  uPrev : ℚ
  deriving Repr, DecidableEq

/-- Constructor `ADConverter::ADConverter`: sets `u_prev_ = 0`. -/
def ADConverter.make : ADState := { uPrev := 0 }

/-- Method `ADConverter::compute(double uk)`: returns the held value
and stores the new input. -/
def ADConverter.compute (s : ADState) (uk : ℚ) : ℚ × ADState :=
  (s.uPrev, { uPrev := uk })

/-- Method `ADConverter::resetState()`: sets `u_prev_ = 0`. -/
def ADConverter.resetState (_ : ADState) : ADState := { uPrev := 0 }

/-- Feeding a list of inputs through `ADConverter::compute`,
collecting the outputs. -/
def ADConverter.run (s : ADState) : List ℚ → List ℚ × ADState
  | [] => ([], s)
  | u :: us =>
    let p := ADConverter.compute s u
    let q := ADConverter.run p.2 us
    (p.1 :: q.1, q.2)

/-! ## Sumador (Sumador.cpp)

State: the last computed error `e_out_`. -/

structure SumadorState where
  eOut : ℚ
  deriving Repr, DecidableEq

/-- Constructor `Sumador::Sumador`: sets `e_out_ = 0`. -/
def Sumador.make : SumadorState := { eOut := 0 }

/-- Method `Sumador::compute(double ref, double y)`: stores and
returns `ref - y`. -/
def Sumador.computeTwo (_ : SumadorState) (ref y : ℚ) : ℚ × SumadorState :=
  (ref - y, { eOut := ref - y })

/-- Method `Sumador::compute(double)`: always throws
`std::runtime_error`; the `Except.error` branch is the throw. -/
def Sumador.computeOne (_s : SumadorState) (_uk : ℚ) : Except String (ℚ × SumadorState) :=
  .error "Sumador necesita 2 entradas: use compute(ref, y)"

/-! ## Temporizador (Temporizador.cpp)

State: the `struct timespec next_` deadline (seconds and
nanoseconds, both machine integers embedded as `ℤ`) and the period
`period_ns_`. -/

structure Timespec where
  sec : ℤ
  nsec : ℤ
  deriving Repr, DecidableEq

/-- Total nanosecond reading of a `timespec`. -/
def Timespec.toNs (t : Timespec) : ℤ := t.sec * 1000000000 + t.nsec

/-- The C cast `static_cast<long>(x)` on a non-integral value:
truncation toward zero. -/
def doubleToLong (x : ℚ) : ℤ := Int.tdiv x.num x.den

structure TemporizadorState where
  next : Timespec
  periodNs : ℤ
  deriving Repr, DecidableEq

/-- Constructor `Temporizador::Temporizador(double frequency)`:
`period_ns_ = static_cast<long>((1.0 / frequency) * 1e9)` (the C cast
truncates toward zero) and `next_` is the monotonic clock reading
`t0`, passed in here because the embedding has no clock. -/
def Temporizador.make (frequency : ℚ) (t0 : Timespec) : TemporizadorState :=
  { next := t0,
    periodNs := doubleToLong ((1 / frequency) * 1000000000) }

/-- Method `Temporizador::esperar()`: adds the period to `tv_nsec`,
carries at most one second of overflow into `tv_sec`, and sleeps until
the stored absolute instant. The sleep does not change `next_`, so the
state transition is exactly this arithmetic; it never reads the
current clock. -/
def Temporizador.esperar (s : TemporizadorState) : TemporizadorState :=
  if s.next.nsec + s.periodNs ≥ 1000000000 then
    { s with next := { sec := s.next.sec + 1,
                       nsec := s.next.nsec + s.periodNs - 1000000000 } }
  else
    { s with next := { sec := s.next.sec, nsec := s.next.nsec + s.periodNs } }

/-! ## RuntimeLogger (RuntimeLogger.cpp)

State: the line deque `log_buffer_` (front = oldest), the `int`
fields `max_lines_`, `flush_interval_`, `lines_since_flush_`. The
file-system side (path, header, column layout, `writeToFile`) is I/O
and does not influence the buffer contents. -/

structure LoggerState where
  maxLines : ℤ
  buf : List String
  flushInterval : ℤ
  linesSinceFlush : ℤ
  deriving Repr, DecidableEq

/-- Constructor `RuntimeLogger::RuntimeLogger(prefix, max_lines, dir)`:
stores `max_lines_`, sets `flush_interval_ = 100`,
`lines_since_flush_ = 0`, empty buffer. -/
def RuntimeLogger.make (maxLines : ℤ) : LoggerState :=
  { maxLines := maxLines, buf := [], flushInterval := 100, linesSinceFlush := 0 }

/-- The C++ comparison `log_buffer_.size() >= static_cast<size_t>(max_lines_)`:
the `int` is converted to `size_t` modulo `2^64`. -/
def sizeTCast (n : ℤ) : ℕ := (n % (2 ^ 64 : ℤ)).toNat

/-- Method `RuntimeLogger::writeLine(line, force_flush)`: if the deque
already holds at least `size_t(max_lines_)` lines, `pop_front()` the
oldest (undefined behaviour when the deque is empty: the `none`
branch), then `push_back` the new line; then the flush-counter logic,
where `flush()` only rewrites the file and zeroes the counter. -/
def RuntimeLogger.writeLine (s : LoggerState) (line : String)
    (forceFlush : Bool := false) : Option LoggerState :=
  let popped : Option (List String) :=
    if s.buf.length ≥ sizeTCast s.maxLines then
      match s.buf with
      | [] => none
      | _ :: rest => some rest
    else some s.buf
  match popped with
  | none => none
  | some b =>
    let count1 := s.linesSinceFlush + 1
    some { s with buf := b ++ [line],
                  linesSinceFlush :=
                    if forceFlush ∨ (s.flushInterval > 0 ∧ count1 ≥ s.flushInterval)
                    then 0 else count1 }

/-- Feeding a list of lines through `writeLine` (default
`force_flush = false`), stopping at the first undefined execution. -/
def RuntimeLogger.writeAll (s : LoggerState) : List String → Option LoggerState
  | [] => some s
  | l :: ls =>
    match RuntimeLogger.writeLine s l with
    | none => none
    | some s1 => RuntimeLogger.writeAll s1 ls

/-! ## TransferFunctionSystem (TransferFunctionSystem.cpp)

State: coefficient vectors `b_`, `a_` and the two histories
`uHist_` (length `b_.size()`), `yHist_` (length `a_.size() - 1`). -/

structure TFState where
  b : List ℚ
  a : List ℚ
  uHist : List ℚ
  yHist : List ℚ
  Ts : ℚ
  deriving Repr, DecidableEq

/-- The constructor's in-place loop `for (auto &ai : a_) ai /= a_[0];`:
element `i` is divided by the value `a_[0]` holds at that moment, so
the first iteration rewrites `a_[0]` itself and all later iterations
divide by the updated `a_[0]`. -/
def tfNormalizeLoop (a : List ℚ) : List ℚ :=
  (List.range a.length).foldl
    (fun acc i => acc.set i (acc.getD i 0 / acc.getD 0 0)) a

/-- The constructor's guard `if (!a_.empty() && a_[0] != 1.0)` around
the normalisation loop. -/
def tfNormalize (a : List ℚ) : List ℚ :=
  if ¬ a.isEmpty ∧ a.getD 0 0 ≠ 1 then tfNormalizeLoop a else a

/-- Constructor `TransferFunctionSystem::TransferFunctionSystem(b, a, Ts,
bufferSize)`: the `DiscreteSystem` base throws when `Ts <= 0`;
then the denominator is passed through the normalisation loop and the
histories are zero-filled to lengths `b_.size()` and `a_.size() - 1`.
For an empty `a` the `size_t` expression `a_.size() - 1` wraps to
`SIZE_MAX` and the vector allocation throws: the second error branch. -/
def TransferFunctionSystem.make (b a : List ℚ) (Ts : ℚ) : Except String TFState :=
  if Ts ≤ 0 then .error "InvalidSamplingTime: Ts must be > 0"
  else if a.isEmpty then .error "length_error: yHist_ of size SIZE_MAX"
  else
    let a1 := tfNormalize a
    .ok { b := b, a := a1, uHist := List.replicate b.length 0,
          yHist := List.replicate (a1.length - 1) 0, Ts := Ts }

/-- Method `TransferFunctionSystem::compute(double uk)`: shift the
input history and push `uk` at the front, accumulate
`yk = Σ b_[i]·uHist_[i]` then `yk -= a_[i]·yHist_[i-1]` for `i ≥ 1`,
divide by `a_[0]`, shift the output history and push `yk`. The shift
loops and `a_[0]` index the vectors out of range when a history or
`a_` is empty or shorter than the coefficient vector: the `none`
branch marks those undefined executions. -/
def TransferFunctionSystem.compute (s : TFState) (uk : ℚ) : Option (ℚ × TFState) :=
  if s.uHist.isEmpty ∨ s.yHist.isEmpty ∨ s.a.isEmpty
      ∨ s.b.length > s.uHist.length ∨ s.a.length - 1 > s.yHist.length then
    none
  else
    let uH := uk :: s.uHist.dropLast
    let num := (List.range s.b.length).foldl
      (fun acc i => acc + s.b.getD i 0 * uH.getD i 0) 0
    let fed := (List.range (s.a.length - 1)).foldl
      (fun acc i => acc - s.a.getD (i + 1) 0 * s.yHist.getD i 0) num
    let yk := fed / s.a.getD 0 0
    some (yk, { s with uHist := uH, yHist := yk :: s.yHist.dropLast })

/-- Method `TransferFunctionSystem::resetState()`: prints a message and
modifies nothing (the histories are not cleared). -/
def TransferFunctionSystem.resetState (s : TFState) : TFState := s

/-- Feeding a list of inputs through `compute`, collecting the
outputs, `none` at the first undefined execution. -/
def TransferFunctionSystem.run (s : TFState) : List ℚ → Option (List ℚ × TFState)
  | [] => some ([], s)
  | u :: us =>
    match TransferFunctionSystem.compute s u with
    | none => none
    | some p =>
      match TransferFunctionSystem.run p.2 us with
      | none => none
      | some q => some (p.1 :: q.1, q.2)

/-! ## DiscreteSystem base class (DiscreteSystem.cpp)

State shared by every block: `Ts_`, step counter `k_`, and the
diagnostic circular sample buffer (`bufferSize_`, `writeIndex_`,
`count_`, `buffer_`). -/

structure Sample where
  u : ℚ
  y : ℚ
  k : ℤ
  deriving Repr, DecidableEq

structure DSBase where
  Ts : ℚ
  k : ℤ
  bufferSize : ℕ
  writeIndex : ℕ
  count : ℕ
  buffer : List Sample
  deriving Repr, DecidableEq

/-- Constructor `DiscreteSystem::DiscreteSystem(Ts, bufferSize)`:
allocates `buffer_(bufferSize)` and throws exactly when `Ts <= 0`;
the buffer size itself is not validated. -/
def DiscreteSystem.make (Ts : ℚ) (bufferSize : ℕ) : Except String DSBase :=
  if Ts ≤ 0 then .error "InvalidSamplingTime: Ts must be > 0"
  else .ok { Ts := Ts, k := 0, bufferSize := bufferSize, writeIndex := 0,
             count := 0, buffer := List.replicate bufferSize ⟨0, 0, 0⟩ }

/-- Method `DiscreteSystem::storeSample(uk, yk)`: writes
`buffer_[writeIndex_]`, bumps `count_` while below `bufferSize_`, and
advances `writeIndex_ = (writeIndex_ + 1) % bufferSize_`. With
`bufferSize_ = 0` the write indexes an empty vector and the modulo
divides by zero, both undefined: the `none` branch. -/
def DiscreteSystem.storeSample (s : DSBase) (uk yk : ℚ) : Option DSBase :=
  if s.writeIndex < s.buffer.length ∧ s.bufferSize ≠ 0 then
    some { s with
      buffer := s.buffer.set s.writeIndex ⟨uk, yk, s.k⟩,
      count := if s.count < s.bufferSize then s.count + 1 else s.count,
      writeIndex := (s.writeIndex + 1) % s.bufferSize }
  else none

/-- An `ADConverter` together with its `DiscreteSystem` base, as the
object the public interface exposes. -/
structure ADFull where
  base : DSBase
  uPrev : ℚ
  deriving Repr, DecidableEq

/-- Constructor `ADConverter::ADConverter(Ts, bufferSize)` through the
base constructor, with `u_prev_ = 0`. -/
def ADConverterFull.make (Ts : ℚ) (bufferSize : ℕ) : Except String ADFull :=
  (DiscreteSystem.make Ts bufferSize).map (fun b => { base := b, uPrev := 0 })

/-- The public step `DiscreteSystem::next(double uk)` for the
`ADConverter`: calls the virtual `compute`, then `storeSample(uk, yk)`,
then `k_++`. -/
def ADConverterFull.next (s : ADFull) (uk : ℚ) : Option (ℚ × ADFull) :=
  let yk := s.uPrev
  match DiscreteSystem.storeSample s.base uk yk with
  | none => none
  | some b1 => some (yk, { base := { b1 with k := b1.k + 1 }, uPrev := uk })

/-! ## HiloPID task loop (HiloPID.cpp) and configuration
(system_config.h)

The loop body of `HiloPID::run` is embedded as a function of an
environment describing what the concurrent world did this iteration
(whether `pthread_mutex_trylock(&vars_->mtx)` found the mutex busy or
failed, the measured wait and execution times, the `running` flag and
the cell contents) together with the PID block state. -/

/-- Configuration constant `SystemConfig::TIMEDLOCK_TIMEOUT_FRACTION`
(system_config.h line 70). -/
def SystemConfig.TIMEDLOCK_TIMEOUT_FRACTION : ℚ := 2 / 10

/-- Configuration constant `SystemConfig::WARNING_THRESHOLD`. -/
def SystemConfig.WARNING_THRESHOLD : ℚ := 9 / 10

/-- The kind of pthread call a mutex acquisition in the source makes. -/
inductive LockCall
  | mutexTrylock
  | mutexLock
  | mutexTimedlock
  deriving Repr, DecidableEq

structure LockEvent where
  cell : String
  call : LockCall
  deriving Repr, DecidableEq

/-- Mutex acquisitions performed by one full iteration of
`HiloPID::run`: line 141 `pthread_mutex_trylock(&vars_->mtx)` at loop
entry, line 178 `pthread_mutex_lock(&params_->mtx)` for the parameter
read. The control-output write (line 192, `vars_->u = output`) happens
under the entry lock and performs no acquisition of its own. -/
def hiloPIDRunLockCalls : List LockEvent :=
  [{ cell := "vars", call := .mutexTrylock },
   { cell := "params", call := .mutexLock }]

/-- What the concurrent environment hands one iteration of the loop. -/
structure PIDIterEnv where
  varsBusy : Bool
  trylockErr : Bool
  tEsperaUs : ℚ
  tEjecUs : ℚ
  running : Bool
  kp : ℚ
  ki : ℚ
  kd : ℚ
  e : ℚ
  deriving Repr, DecidableEq

/-- Outcome of one iteration of `HiloPID::run`. -/
inductive PIDIterResult
  | skippedLogged
  | skippedSilent
  | skippedTrylockErr
  | stopped
  | executed (u : ℚ) (pid : PIDState) (status : String)
  deriving Repr, DecidableEq

/-- One iteration of `HiloPID::run` (lines 134-224): trylock on
`vars_->mtx`; on `EBUSY` skip the whole iteration, logging an
`ERROR_MUTEX` row only when the measured wait exceeds
`threshold_80 = 0.80 * periodo_us`; on another trylock error skip
silently; with the mutex held, break when `running` is false;
otherwise read `kp, ki, kd` under a blocking `pthread_mutex_lock` on
`params_->mtx`, call `setGains`, run the PID on `vars_->e`, write
`vars_->u`, and classify the cycle (`CRITICAL` above the period,
`WARNING` above `0.90 * periodo_us`, else `OK`). -/
def hiloPIDIteration (periodoUs : ℚ) (env : PIDIterEnv) (pid : PIDState) :
    PIDIterResult :=
  let threshold80 := (80 / 100 : ℚ) * periodoUs
  let threshold90 := (90 / 100 : ℚ) * periodoUs
  if env.varsBusy then
    if env.tEsperaUs > threshold80 then .skippedLogged else .skippedSilent
  else if env.trylockErr then
    .skippedTrylockErr
  else if ¬ env.running then
    .stopped
  else
    let pid1 := PIDController.setGains pid env.kp env.ki env.kd
    let (u, pid2) := PIDController.compute pid1 env.e
    let tTotal := env.tEsperaUs + env.tEjecUs
    let status :=
      if tTotal > periodoUs then "CRITICAL"
      else if tTotal > threshold90 then "WARNING"
      else "OK"
    .executed u pid2 status

/-! ## Supporting lemmas -/

/-- Running the PID produces one output per fed error. -/
theorem pid_run_length : ∀ (es : List ℚ) (s : PIDState),
    (PIDController.run s es).1.length = es.length
  | [], s => by simp [PIDController.run]
  | e :: es, s => by
    simp [PIDController.run, pid_run_length es]

/-- Running the PID appends the fed errors to `eHist_` and the produced
outputs to `uHist_`: nothing is ever trimmed. -/
theorem pid_run_hist : ∀ (es : List ℚ) (s : PIDState),
    ((PIDController.run s es).2).eHist = s.eHist ++ es
    ∧ ((PIDController.run s es).2).uHist = s.uHist ++ (PIDController.run s es).1
  | [], s => by simp [PIDController.run]
  | e :: es, s => by
    have ih := pid_run_hist es (PIDController.compute s e).2
    simp only [PIDController.run]
    refine ⟨?_, ?_⟩
    · rw [ih.1]; simp [PIDController.compute]
    · rw [ih.2]; simp [PIDController.compute]

/-- The A/D delay's output list: the held value followed by all inputs
but the last. -/
theorem ad_run_outputs : ∀ (us : List ℚ) (s : ADState),
    (ADConverter.run s us).1 = (s.uPrev :: us).take us.length
  | [], s => by simp [ADConverter.run]
  | u :: us, s => by
    simp [ADConverter.run, ADConverter.compute, ad_run_outputs us]

/-- One `esperar` call adds exactly one period to the deadline's total
nanosecond reading and keeps the period. -/
theorem esperar_toNs (s : TemporizadorState) :
    (Temporizador.esperar s).next.toNs = s.next.toNs + s.periodNs
    ∧ (Temporizador.esperar s).periodNs = s.periodNs := by
  unfold Temporizador.esperar
  split <;> constructor <;> simp [Timespec.toNs] <;> ring

/-- Iterating `esperar` N times adds N periods to the deadline. -/
theorem esperar_iterate (N : ℕ) (s : TemporizadorState) :
    (Temporizador.esperar^[N] s).next.toNs = s.next.toNs + N * s.periodNs
    ∧ (Temporizador.esperar^[N] s).periodNs = s.periodNs := by
  induction N generalizing s with
  | zero => simp
  | succ n ih =>
    rw [Function.iterate_succ_apply]
    have h1 := esperar_toNs s
    have h2 := ih (Temporizador.esperar s)
    refine ⟨?_, by rw [h2.2, h1.2]⟩
    rw [h2.1, h1.1, h1.2]
    push_cast
    ring

/-- Casting a small non-negative capacity through `size_t` is exact. -/
theorem sizeTCast_coe (C : ℕ) (h : C < 2 ^ 64) : sizeTCast (C : ℤ) = C := by
  unfold sizeTCast
  rw [Int.emod_eq_of_lt (by positivity) (by exact_mod_cast h)]
  simp

/-- Below capacity, `writeLine` appends the line and touches nothing
else of the buffer. -/
theorem writeLine_append (s : LoggerState) (l : String) (C : ℕ)
    (hm : s.maxLines = (C : ℤ)) (h64 : C < 2 ^ 64) (hlt : s.buf.length < C) :
    ∃ s1, RuntimeLogger.writeLine s l = some s1 ∧ s1.buf = s.buf ++ [l]
      ∧ s1.maxLines = s.maxLines := by
  simp only [RuntimeLogger.writeLine, hm, sizeTCast_coe C h64]
  rw [if_neg (not_le.mpr hlt)]
  exact ⟨_, rfl, rfl, rfl⟩

/-- At or above capacity, `writeLine` pops the oldest line and appends
the new one. -/
theorem writeLine_evict (s : LoggerState) (l : String) (C : ℕ) (x : String)
    (rest : List String) (hm : s.maxLines = (C : ℤ)) (h64 : C < 2 ^ 64)
    (hbuf : s.buf = x :: rest) (hge : C ≤ s.buf.length) :
    ∃ s1, RuntimeLogger.writeLine s l = some s1 ∧ s1.buf = rest ++ [l]
      ∧ s1.maxLines = s.maxLines := by
  simp only [RuntimeLogger.writeLine, hm, sizeTCast_coe C h64]
  rw [if_pos hge, hbuf]
  exact ⟨_, rfl, rfl, rfl⟩

/-- Folding `writeLine` over a line list from any in-capacity state:
the buffer ends as the last `C` elements of old-buffer-then-lines. -/
theorem writeAll_drop : ∀ (ls : List String) (s : LoggerState) (C : ℕ),
    s.maxLines = (C : ℤ) → C < 2 ^ 64 → 0 < C → s.buf.length ≤ C →
    ∃ s2, RuntimeLogger.writeAll s ls = some s2
      ∧ s2.buf = (s.buf ++ ls).drop (s.buf.length + ls.length - C)
      ∧ s2.buf.length ≤ C
  | [], s, C, hm, h64, hC, hlen => by
    refine ⟨s, rfl, ?_, hlen⟩
    simp only [List.append_nil, List.length_nil, Nat.add_zero]
    rw [show s.buf.length - C = 0 from by omega, List.drop_zero]
  | l :: ls, s, C, hm, h64, hC, hlen => by
    rcases lt_or_eq_of_le hlen with hlt | heq
    · obtain ⟨s1, hw, hbuf1, hm1⟩ := writeLine_append s l C hm h64 hlt
      obtain ⟨s2, hall, hbuf2, hlen2⟩ :=
        writeAll_drop ls s1 C (hm1.trans hm) h64 hC
          (by rw [hbuf1]; simp; omega)
      refine ⟨s2, ?_, ?_, hlen2⟩
      · simp only [RuntimeLogger.writeAll, hw]; exact hall
      · rw [hbuf2, hbuf1]
        have hidx : s.buf.length + [l].length + ls.length - C
            = s.buf.length + (l :: ls).length - C := by simp; omega
        rw [List.length_append, hidx, List.append_assoc]
        simp
    · have hne : s.buf ≠ [] := by
        intro h; rw [h] at heq; simp at heq; omega
      obtain ⟨x, rest, hbuf⟩ := List.exists_cons_of_ne_nil hne
      obtain ⟨s1, hw, hbuf1, hm1⟩ :=
        writeLine_evict s l C x rest hm h64 hbuf heq.ge
      have hrest : rest.length + 1 = C := by
        have h := heq
        rw [hbuf] at h; simpa using h
      obtain ⟨s2, hall, hbuf2, hlen2⟩ :=
        writeAll_drop ls s1 C (hm1.trans hm) h64 hC
          (by rw [hbuf1]; simp; omega)
      refine ⟨s2, ?_, ?_, hlen2⟩
      · simp only [RuntimeLogger.writeAll, hw]; exact hall
      · rw [hbuf2, hbuf1, hbuf]
        have hidx1 : (rest ++ [l]).length + ls.length - C = ls.length := by
          simp; omega
        have hidx2 : (x :: rest).length + (l :: ls).length - C
            = ls.length + 1 := by simp; omega
        rw [hidx1, hidx2, List.cons_append, List.drop_succ_cons,
          List.append_assoc]
        simp

/-- Running the PID over a concatenation composes: outputs concatenate
and the final state is the state after both parts. -/
theorem pid_run_append : ∀ (es1 es2 : List ℚ) (s : PIDState),
    (PIDController.run s (es1 ++ es2)).1
      = (PIDController.run s es1).1
        ++ (PIDController.run (PIDController.run s es1).2 es2).1
    ∧ (PIDController.run s (es1 ++ es2)).2
      = (PIDController.run (PIDController.run s es1).2 es2).2
  | [], es2, s => by simp [PIDController.run]
  | e :: es1, es2, s => by
    have ih := pid_run_append es1 es2 (PIDController.compute s e).2
    simp only [List.cons_append, PIDController.run, List.append_eq]
    exact ⟨by rw [ih.1], ih.2⟩

/-- Running the PID never changes the gains or the sampling period. -/
theorem pid_run_gains : ∀ (es : List ℚ) (s : PIDState),
    (PIDController.run s es).2.Kp = s.Kp ∧ (PIDController.run s es).2.Ki = s.Ki
    ∧ (PIDController.run s es).2.Kd = s.Kd
    ∧ (PIDController.run s es).2.Ts = s.Ts
  | [], s => by simp [PIDController.run]
  | e :: es, s => by
    have ih := pid_run_gains es (PIDController.compute s e).2
    simp only [PIDController.run]
    simpa [PIDController.compute] using ih

/-- The last element of a list, as a positional lookup. -/
theorem getLastD_eq_getD (l : List ℚ) (d : ℚ) :
    l.getLastD d = l.getD (l.length - 1) d := by
  rw [List.getLastD_eq_getLast?, List.getLast?_eq_getElem?,
    List.getD_eq_getElem?_getD]

/-- Positional lookups below the cut pass through `take`. -/
theorem getD_take (l : List ℚ) (k n : ℕ) (h : n < k) :
    (l.take k).getD n 0 = l.getD n 0 := by
  rw [List.getD_eq_getElem?_getD, List.getElem?_take_of_lt h,
    ← List.getD_eq_getElem?_getD]

/-! ## Claims -/

/-- C8: the summing junction's two-input step returns `r − y` for all
inputs, and its one-input step throws for every input, never returning
a value. -/
theorem C8_sumador_subtracts (s : SumadorState) (r y u : ℚ) :
    (Sumador.computeTwo s r y).1 = r - y
    ∧ Sumador.computeOne s u
        = Except.error "Sumador necesita 2 entradas: use compute(ref, y)" :=
  ⟨rfl, rfl⟩

/-- C9: `TransferFunctionSystem::resetState` leaves the histories and
coefficient vectors unchanged (it only prints), so stepping after a
reset produces exactly the outputs of stepping without it. -/
theorem C9_tf_reset_is_noop (s : TFState) (us : List ℚ) :
    TransferFunctionSystem.resetState s = s
    ∧ (TransferFunctionSystem.resetState s).b = s.b
    ∧ (TransferFunctionSystem.resetState s).a = s.a
    ∧ (TransferFunctionSystem.resetState s).uHist = s.uHist
    ∧ (TransferFunctionSystem.resetState s).yHist = s.yHist
    ∧ TransferFunctionSystem.run (TransferFunctionSystem.resetState s) us
        = TransferFunctionSystem.run s us :=
  ⟨rfl, rfl, rfl, rfl, rfl, rfl⟩

/-- C1: at the failing input `b = [1]`, `a = [2, 4]`, `Ts = 1` the
constructor stores the denominator `[1, 4]` — only the leading
coefficient was divided by the original `a₀ = 2`, because the in-place
loop rewrites `a_[0]` first and then divides the remaining
coefficients by the updated value `1` — whereas normalising every
coefficient by the original leading coefficient gives `[1, 2]`. -/
theorem C1_tf_normalization_slip :
    TransferFunctionSystem.make [1] [(2 : ℚ), 4] 1
      = Except.ok { b := [1], a := [1, 4], uHist := [0], yHist := [0], Ts := 1 }
    ∧ [(2 : ℚ), 4].map (fun x => x / 2) = [1, 2]
    ∧ ([(1 : ℚ), 4] : List ℚ) ≠ [1, 2] := by
  refine ⟨?_, by norm_num, by norm_num⟩
  norm_num [TransferFunctionSystem.make, tfNormalize, tfNormalizeLoop,
    List.range_succ, List.getD]

/-- C3: the PID block's histories grow by one entry per step — after
`N` steps from a fresh controller `eHist_` and `uHist_` each hold `N`
entries — so the retained state is not bounded by a constant (and in
particular violates the header's own invariant `eHist_.size() <= 3`),
as the concrete four-step run shows. -/
theorem C3_pid_state_grows :
    (∀ (s : PIDState) (es : List ℚ),
      ((PIDController.run s es).2).eHist.length = s.eHist.length + es.length
      ∧ ((PIDController.run s es).2).uHist.length = s.uHist.length + es.length)
    ∧ (∃ s, PIDController.make 1 0 0 1 = Except.ok s
        ∧ ((PIDController.run s [1, 1, 1, 1]).2).eHist.length = 4
        ∧ ¬ (4 : ℕ) ≤ 3) := by
  have hgen : ∀ (s : PIDState) (es : List ℚ),
      ((PIDController.run s es).2).eHist.length = s.eHist.length + es.length
      ∧ ((PIDController.run s es).2).uHist.length = s.uHist.length + es.length := by
    intro s es
    have h := pid_run_hist es s
    exact ⟨by rw [h.1]; simp, by rw [h.2]; simp [pid_run_length]⟩
  refine ⟨hgen, ⟨{ Kp := 1, Ki := 0, Kd := 0, Ts := 1, eHist := [], uHist := [] },
    ?_, ?_, by omega⟩⟩
  · norm_num [PIDController.make]
  · rw [(hgen _ _).1]; rfl

/-- C4: the timer constructed at frequency `f` captures `t₀` as the
initial deadline and a period of `⌊10⁹/f⌋` ns, and after `N` calls to
`esperar()` the deadline reads `t₀ + N·period` nanoseconds: each call
advances the stored deadline by one period and never consults the
clock, so no drift accumulates. -/
theorem C4_timer_deadline (f : ℚ) (t0 : Timespec) (N : ℕ) :
    (Temporizador.make f t0).next = t0
    ∧ (Temporizador.esperar^[N] (Temporizador.make f t0)).next.toNs
        = t0.toNs + N * (Temporizador.make f t0).periodNs
    ∧ (0 < f → (Temporizador.make f t0).periodNs = ⌊(1000000000 : ℚ) / f⌋) := by
  refine ⟨rfl, (esperar_iterate N _).1, ?_⟩
  intro hf
  show doubleToLong ((1 / f) * 1000000000) = _
  have hx : (1 / f) * 1000000000 = (1000000000 : ℚ) / f := by ring
  rw [hx]
  set x : ℚ := (1000000000 : ℚ) / f with hxdef
  have hx0 : 0 ≤ x := by positivity
  have hnum : 0 ≤ x.num := Rat.num_nonneg.mpr hx0
  have hden : (0 : ℤ) ≤ x.den := Int.ofNat_nonneg x.den
  rw [doubleToLong, Int.tdiv_eq_ediv hnum hden, Rat.floor_def]

/-- C7: the A/D delay's one-input step at step `k` returns the input
passed at step `k−1` and returns `0` at step `0`; the constructor and
`resetState` both set the stored previous input to `0`. -/
theorem C7_ad_delay (us : List ℚ) (k : ℕ) (s : ADState) (hk : k < us.length) :
    ((ADConverter.run ADConverter.make us).1.getD k 0
        = if k = 0 then 0 else us.getD (k - 1) 0)
    ∧ (ADConverter.resetState s).uPrev = 0
    ∧ ADConverter.make.uPrev = 0 := by
  refine ⟨?_, rfl, rfl⟩
  rw [ad_run_outputs]
  show ((((0 : ℚ) :: us).take us.length).getD k 0) = _
  rw [List.getD_eq_getElem?_getD, List.getElem?_take_of_lt hk]
  cases k with
  | zero => simp
  | succ j =>
    simp only [List.getElem?_cons_succ, Nat.succ_ne_zero, if_false,
      Nat.succ_sub_one]
    rw [List.getD_eq_getElem?_getD]

/-- C4 witness: at `f = 3` Hz from `t₀ = 1 s`, the period is
`⌊10⁹/3⌋ = 333333333` ns and three waits land on
`10⁹ + 3·333333333` ns. -/
theorem C4_timer_deadline_witness :
    (Temporizador.make 3 ⟨1, 0⟩).next = ⟨1, 0⟩
    ∧ (Temporizador.esperar^[3] (Temporizador.make 3 ⟨1, 0⟩)).next.toNs
        = Timespec.toNs ⟨1, 0⟩ + 3 * (Temporizador.make 3 ⟨1, 0⟩).periodNs
    ∧ (0 < (3 : ℚ) → (Temporizador.make 3 ⟨1, 0⟩).periodNs
        = ⌊(1000000000 : ℚ) / 3⌋) :=
  C4_timer_deadline 3 ⟨1, 0⟩ 3

/-- C7 witness: for the input sequence `[5, 7, 9]` the output at step
2 is the input of step 1, and reset clears the held value. -/
theorem C7_ad_delay_witness :
    (2 : ℕ) < ([5, 7, 9] : List ℚ).length
    ∧ (((ADConverter.run ADConverter.make [5, 7, 9]).1.getD 2 0
          = if (2 : ℕ) = 0 then 0 else ([5, 7, 9] : List ℚ).getD (2 - 1) 0)
        ∧ (ADConverter.resetState { uPrev := 42 }).uPrev = 0
        ∧ ADConverter.make.uPrev = 0) :=
  ⟨by norm_num, C7_ad_delay [5, 7, 9] 2 { uPrev := 42 } (by norm_num)⟩

/-- C10: every discrete-block constructor validates only the sampling
period — `Ts ≤ 0` raises and any buffer size, `0` included, is
accepted — and for a block constructed with buffer size `0` the very
first public step hits `storeSample`'s undefined branch (empty-buffer
write and modulo-zero index), so the guarded embedding's error branch
is reachable from the public interface. -/
theorem C10_buffer_zero_reachable (Ts Tbad uk : ℚ) (n : ℕ)
    (hTs : 0 < Ts) (hbad : Tbad ≤ 0) :
    (∃ s, DiscreteSystem.make Ts n = Except.ok s)
    ∧ DiscreteSystem.make Tbad n
        = Except.error "InvalidSamplingTime: Ts must be > 0"
    ∧ (∃ s0, ADConverterFull.make Ts 0 = Except.ok s0
        ∧ ADConverterFull.next s0 uk = none) := by
  have hn : ¬ Ts ≤ 0 := not_le.mpr hTs
  refine ⟨?_, ?_, ?_⟩
  · exact ⟨⟨Ts, 0, n, 0, 0, List.replicate n ⟨0, 0, 0⟩⟩,
      by simp [DiscreteSystem.make, hn]⟩
  · simp [DiscreteSystem.make, hbad]
  · exact ⟨⟨⟨Ts, 0, 0, 0, 0, []⟩, 0⟩,
      by simp [ADConverterFull.make, DiscreteSystem.make, hn, Except.map],
      by simp [ADConverterFull.next, DiscreteSystem.storeSample]⟩

/-- C10 witness: `Ts = 1` with buffer size `0` constructs fine, `Ts = 0`
raises, and the first step on the size-0 block is undefined. -/
theorem C10_buffer_zero_reachable_witness :
    (∃ s, DiscreteSystem.make 1 100 = Except.ok s)
    ∧ DiscreteSystem.make 0 100
        = Except.error "InvalidSamplingTime: Ts must be > 0"
    ∧ (∃ s0, ADConverterFull.make 1 0 = Except.ok s0
        ∧ ADConverterFull.next s0 5 = none) :=
  C10_buffer_zero_reachable 1 0 5 100 (by norm_num) (by norm_num)

/-- C2 counterexample: in `HiloPID::run` the parameter cell is read
under a plain blocking `pthread_mutex_lock`, not a timed lock — the
only acquisition with a timeout-like behaviour is the zero-wait
trylock on the pipeline mutex at loop entry — and an iteration that
finds the pipeline mutex busy after a wait of 50% of the period (far
beyond the claimed 20% bound) is skipped silently with no error-status
log row. -/
theorem C2_no_timed_locks :
    ((hiloPIDRunLockCalls.filter (fun ev => ev.cell = "params")).map
        LockEvent.call = [LockCall.mutexLock])
    ∧ LockCall.mutexLock ≠ LockCall.mutexTimedlock
    ∧ hiloPIDRunLockCalls.all
        (fun ev => decide (ev.call ≠ LockCall.mutexTimedlock)) = true
    ∧ hiloPIDIteration 100
        { varsBusy := true, trylockErr := false, tEsperaUs := 50, tEjecUs := 0,
          running := true, kp := 1, ki := 1, kd := 1, e := 0 }
        { Kp := 1, Ki := 0, Kd := 0, Ts := 1, eHist := [], uHist := [] }
        = PIDIterResult.skippedSilent := by
  refine ⟨by decide, by decide, by decide, ?_⟩
  norm_num [hiloPIDIteration]

/-- C2 amended: the PID task loop acquires the pipeline mutex at loop
entry with a non-blocking trylock and reads the parameter cell under
an ordinary blocking lock; when the trylock finds the mutex busy the
task skips the entire iteration — parameter read, PID step and output
write — and emits an `ERROR_MUTEX` log row exactly when the measured
wait exceeds 80% of the period; on the successful path the gains are
copied into the PID via `setGains` before the step and the output
write happens under the entry lock. -/
theorem C2_trylock_contention (T : ℚ) (env : PIDIterEnv) (pid : PIDState) :
    (hiloPIDRunLockCalls.map LockEvent.call
        = [LockCall.mutexTrylock, LockCall.mutexLock])
    ∧ (env.varsBusy = true →
        (∀ u pid2 st, hiloPIDIteration T env pid ≠ .executed u pid2 st)
        ∧ (hiloPIDIteration T env pid = .skippedLogged
            ↔ env.tEsperaUs > (80 / 100) * T))
    ∧ (env.varsBusy = false → env.trylockErr = false → env.running = true →
        hiloPIDIteration T env pid
          = .executed
              (PIDController.compute
                (PIDController.setGains pid env.kp env.ki env.kd) env.e).1
              (PIDController.compute
                (PIDController.setGains pid env.kp env.ki env.kd) env.e).2
              (if env.tEsperaUs + env.tEjecUs > T then "CRITICAL"
               else if env.tEsperaUs + env.tEjecUs > (90 / 100) * T
               then "WARNING" else "OK")) := by
  refine ⟨by decide, ?_, ?_⟩
  · intro hbusy
    constructor
    · intro u pid2 st
      simp only [hiloPIDIteration, hbusy, if_true]
      split <;> simp
    · simp only [hiloPIDIteration, hbusy, if_true]
      constructor
      · intro h
        by_contra hc
        rw [if_neg hc] at h
        exact PIDIterResult.noConfusion h
      · intro h
        rw [if_pos h]
  · intro h1 h2 h3
    simp [hiloPIDIteration, h1, h2, h3]

/-- C5: for a logger with capacity `C`, after any sequence of
`write_line` calls with lines `ls` the in-memory buffer holds exactly
the most recent `min(|ls|, C)` lines in insertion order — `ls` with
the first `|ls| − C` lines evicted — so the size never exceeds `C` and
the oldest entry goes first. -/
theorem C5_logger_window (C : ℕ) (ls : List String)
    (hC : 0 < C) (h31 : C < 2 ^ 31) :
    ∃ s2, RuntimeLogger.writeAll (RuntimeLogger.make (C : ℤ)) ls = some s2
      ∧ s2.buf = ls.drop (ls.length - C)
      ∧ s2.buf.length = min ls.length C := by
  have h64 : C < 2 ^ 64 := lt_trans h31 (by norm_num)
  obtain ⟨s2, h1, h2, _⟩ := writeAll_drop ls (RuntimeLogger.make (C : ℤ)) C
    rfl h64 hC (by simp [RuntimeLogger.make])
  have hbuf : s2.buf = ls.drop (ls.length - C) := by
    rw [h2]; simp [RuntimeLogger.make]
  refine ⟨s2, h1, hbuf, ?_⟩
  rw [hbuf, List.length_drop]
  omega

/-- C5 witness: capacity 2, three lines: the buffer ends as the last
two lines in order. -/
theorem C5_logger_window_witness :
    (0 : ℕ) < 2 ∧ (2 : ℕ) < 2 ^ 31
    ∧ (∃ s2, RuntimeLogger.writeAll (RuntimeLogger.make ((2 : ℕ) : ℤ))
          ["a", "b", "c"] = some s2
        ∧ s2.buf = ["a", "b", "c"].drop (["a", "b", "c"].length - 2)
        ∧ s2.buf.length = min ["a", "b", "c"].length 2) :=
  ⟨by norm_num, by norm_num,
    C5_logger_window 2 ["a", "b", "c"] (by norm_num) (by norm_num)⟩

/-- C6: a PID constructed with gains `Kp, Ki, Kd` and period `Ts`
satisfies the velocity-form recurrence
`u[k] = u[k−1] + a₀·e[k] + a₁·e[k−1] + a₂·e[k−2]` with
`a₀ = Kp + Ki·Ts + Kd/Ts`, `a₁ = −Kp − 2·Kd/Ts`, `a₂ = Kd/Ts` and
`e[−1] = e[−2] = 0`, `u[−1] = 0` (for `Kd = 0` this is exactly the PI
velocity form); and `setGains` rewrites only the gains, leaving the
error and output histories — hence all already-produced outputs —
untouched, so a gain change affects only subsequent steps. -/
theorem C6_pid_velocity_recurrence (Kp Ki Kd Ts : ℚ) (es : List ℚ) (k : ℕ)
    (s0 : PIDState) (hmk : PIDController.make Kp Ki Kd Ts = Except.ok s0)
    (hk : k < es.length) :
    ((PIDController.run s0 es).1.getD k 0
      = (if 1 ≤ k then (PIDController.run s0 es).1.getD (k - 1) 0 else 0)
        + (Kp + Ki * Ts + Kd / Ts) * es.getD k 0
        + (-Kp - 2 * Kd / Ts) * (if 1 ≤ k then es.getD (k - 1) 0 else 0)
        + Kd / Ts * (if 2 ≤ k then es.getD (k - 2) 0 else 0))
    ∧ (∀ (s : PIDState) (kp2 ki2 kd2 : ℚ),
        (PIDController.setGains s kp2 ki2 kd2).eHist = s.eHist
        ∧ (PIDController.setGains s kp2 ki2 kd2).uHist = s.uHist) := by
  refine ⟨?_, fun s kp2 ki2 kd2 => ⟨rfl, rfl⟩⟩
  have hs0 : s0 = { Kp := Kp, Ki := Ki, Kd := Kd, Ts := Ts,
                    eHist := [], uHist := [] } := by
    unfold PIDController.make at hmk
    split at hmk
    · exact absurd hmk (by simp)
    · cases hmk; rfl
  subst hs0
  set s0 : PIDState := { Kp := Kp, Ki := Ki, Kd := Kd, Ts := Ts,
                         eHist := [], uHist := [] } with hs0def
  have hlen_take : (es.take k).length = k := by
    rw [List.length_take]; omega
  have hfl : (PIDController.run s0 (es.take k)).1.length = k := by
    rw [pid_run_length, hlen_take]
  have hsplit : es.take k ++ (es[k] :: es.drop (k + 1)) = es := by
    rw [← List.drop_eq_getElem_cons hk, List.take_append_drop]
  have happ := pid_run_append (es.take k) (es[k] :: es.drop (k + 1)) s0
  have hus : (PIDController.run s0 es).1
      = (PIDController.run s0 (es.take k)).1
        ++ (PIDController.run (PIDController.run s0 (es.take k)).2
              (es[k] :: es.drop (k + 1))).1 := by
    conv_lhs => rw [← hsplit]
    exact happ.1
  have hrun_cons : (PIDController.run (PIDController.run s0 (es.take k)).2
        (es[k] :: es.drop (k + 1))).1
      = (PIDController.compute (PIDController.run s0 (es.take k)).2 es[k]).1
        :: (PIDController.run
              (PIDController.compute (PIDController.run s0 (es.take k)).2
                es[k]).2 (es.drop (k + 1))).1 := by
    simp only [PIDController.run]
  have hk_out : (PIDController.run s0 es).1.getD k 0
      = (PIDController.compute (PIDController.run s0 (es.take k)).2 es[k]).1 := by
    rw [hus, List.getD_append_right _ _ _ _ hfl.le, hfl, Nat.sub_self, hrun_cons]
    rfl
  have hhist := pid_run_hist (es.take k) s0
  have heH : (PIDController.run s0 (es.take k)).2.eHist = es.take k := by
    rw [hhist.1]; rfl
  have huH : (PIDController.run s0 (es.take k)).2.uHist
      = (PIDController.run s0 (es.take k)).1 := by
    rw [hhist.2]; rfl
  have hgains := pid_run_gains (es.take k) s0
  have hek : es.getD k 0 = es[k] := by
    rw [List.getD_eq_getElem?_getD,
      (List.getElem?_eq_some_getElem_iff es k hk).mpr trivial]
    rfl
  rw [hk_out, hek]
  simp only [PIDController.compute, heH, huH, hgains.1, hgains.2.1,
    hgains.2.2.1, hgains.2.2.2, hlen_take, hs0def]
  by_cases hk1 : 1 ≤ k
  · have hne : ¬ (PIDController.run s0 (es.take k)).1.isEmpty := by
      rw [List.isEmpty_iff_length_eq_zero, hfl]; omega
    have hprev : (PIDController.run s0 (es.take k)).1.getLastD 0
        = (PIDController.run s0 es).1.getD (k - 1) 0 := by
      rw [getLastD_eq_getD, hfl, hus,
        List.getD_append _ _ _ _ (by rw [hfl]; omega)]
    have he1 : (es.take k).getLastD 0 = es.getD (k - 1) 0 := by
      rw [getLastD_eq_getD, hlen_take, getD_take _ _ _ (by omega)]
    rw [if_neg hne]
    simp only [ge_iff_le, if_pos hk1, hprev, he1]
    by_cases hk2 : 2 ≤ k
    · simp only [if_pos hk2, getD_take _ _ _ (show k - 2 < k by omega)]
      ring
    · simp only [if_neg hk2]
      ring
  · have h0 : k = 0 := by omega
    subst h0
    have hemp : (PIDController.run s0 (es.take 0)).1.isEmpty := by
      rw [List.isEmpty_iff_length_eq_zero, hfl]
    rw [if_pos hemp]
    simp only [ge_iff_le, if_neg hk1, if_neg (show ¬ (2 : ℕ) ≤ 0 by omega)]
    ring

/-- C6 witness: `Kp = 1, Ki = 1, Kd = 0, Ts = 1` on errors `[1, 2, 4]`
at step `k = 2` instantiates the recurrence, and `setGains` keeps
histories. -/
theorem C6_pid_velocity_recurrence_witness :
    (PIDController.make 1 1 0 1
        = Except.ok { Kp := 1, Ki := 1, Kd := 0, Ts := 1, eHist := [], uHist := [] })
    ∧ (2 : ℕ) < ([1, 2, 4] : List ℚ).length
    ∧ (((PIDController.run
          { Kp := 1, Ki := 1, Kd := 0, Ts := 1, eHist := [], uHist := [] }
          [1, 2, 4]).1.getD 2 0
        = (if 1 ≤ (2 : ℕ) then
            (PIDController.run
              { Kp := 1, Ki := 1, Kd := 0, Ts := 1, eHist := [], uHist := [] }
              [1, 2, 4]).1.getD (2 - 1) 0 else 0)
          + ((1 : ℚ) + 1 * 1 + 0 / 1) * ([1, 2, 4] : List ℚ).getD 2 0
          + (-1 - 2 * 0 / 1)
            * (if 1 ≤ (2 : ℕ) then ([1, 2, 4] : List ℚ).getD (2 - 1) 0 else 0)
          + 0 / 1
            * (if 2 ≤ (2 : ℕ) then ([1, 2, 4] : List ℚ).getD (2 - 2) 0 else 0))
      ∧ (∀ (s : PIDState) (kp2 ki2 kd2 : ℚ),
          (PIDController.setGains s kp2 ki2 kd2).eHist = s.eHist
          ∧ (PIDController.setGains s kp2 ki2 kd2).uHist = s.uHist)) :=
  ⟨by norm_num [PIDController.make], by norm_num,
    C6_pid_velocity_recurrence 1 1 0 1 [1, 2, 4] 2 _
      (by norm_num [PIDController.make]) (by norm_num)⟩

end DiscreteSystems
